import Mathlib

/-!
Shallow embedding of the task-resolution and log-correlation core of the
`aws_viewer` dashboard (source: `src/app/aws.ts`, `src/app/routes/tasks/show.tsx`
and the listing route), together with theorems settling the frozen claims.

JavaScript strings are modelled through their character lists (`String.data`);
JavaScript runtime values appearing in parsed event payloads are modelled by
the inductive `JsVal`, where a `Date` object remembers the string it was
constructed from.  A JavaScript `TypeError` (property access on `undefined` or
`null`, calling a method that does not exist) is modelled by `Except`-failure
with `JsErr.typeError`.
-/

namespace AwsViewer

/-- JavaScript `TypeError`-style runtime failures. -/
inductive JsErr where
  | typeError
deriving DecidableEq

/-- Model of `s.endsWith(suffix)` on JavaScript strings. -/
def jsEndsWith (s suffix : String) : Bool :=
  suffix.data.isSuffixOf s.data

/-- Model of `s.startsWith(pre)` on JavaScript strings. -/
def jsStartsWith (s pre : String) : Bool :=
  pre.data.isPrefixOf s.data

/-- Accumulator-style splitting of a character list at every `'/'`,
mirroring JavaScript `s.split("/")` (empty segments are kept). -/
def splitOnSlashAux : List Char → List Char → List (List Char)
  | [], cur => [cur.reverse]
  | c :: cs, cur =>
    if c = '/' then cur.reverse :: splitOnSlashAux cs []
    else splitOnSlashAux cs (c :: cur)

/-- Model of JavaScript `s.split("/")`. -/
def jsSplit (s : String) : List String :=
  (splitOnSlashAux s.data []).map String.mk

/-- Model of JavaScript `s.split("/").pop()` (the trailing path segment);
`split` always yields a non-empty array, so `pop` never sees an empty one. -/
def jsSplitPop (s : String) : String :=
  (jsSplit s).getLastD ""

/-- Model of JavaScript `s.split("/")[1]` (the second `/`-separated segment),
`none` when the split has fewer than two elements. -/
def secondSegment (s : String) : Option String :=
  (jsSplit s).get? 1

/-- Model of JavaScript `x || dflt` applied to an optional string `x`
(`undefined` and the empty string are both falsy). -/
def jsOrString (x : Option String) (dflt : String) : String :=
  match x with
  | none => dflt
  | some s => if s = "" then dflt else s

theorem string_data_append (s t : String) : (s ++ t).data = s.data ++ t.data := by
  cases s; cases t; rfl

theorem string_mk_data (s : String) : String.mk s.data = s := by
  cases s; rfl

/-- JavaScript runtime values as they appear after `JSON.parse`, plus `Date`
objects.  A `Date` is represented by the string it was constructed from, which
is all the dashboard core ever feeds into a `Date` constructor. -/
inductive JsVal where
  | vStr (s : String)
  | vDate (src : String)
  | vNum (n : Int)
  | vBool (b : Bool)
  | vNull
  | vObj (fields : List (String × JsVal))
  | vArr (elems : List JsVal)

/-- Fields of a parsed JavaScript object (insertion-ordered, unique keys). -/
abbrev TaskObj := List (String × JsVal)

/-- Association update mirroring JavaScript `obj[k] = v`: replaces the value
of an existing key in place, otherwise appends the new key at the end. -/
def assocSet {α : Type} (l : List (String × α)) (k : String) (v : α) :
    List (String × α) :=
  match l with
  | [] => [(k, v)]
  | (k', v') :: rest =>
    if k' = k then (k, v) :: rest else (k', v') :: assocSet rest k v

/-- The fixed list of date-valued attribute names reparsed inside the embedded
`Task`, from `parseEcsTaskStateChangeEvent` in `src/app/aws.ts`. -/
def dateKeys : List String :=
  ["createdAt", "executionStoppedAt", "pullStartedAt", "pullStoppedAt",
   "startedAt", "stoppingAt", "stoppedAt", "connectivityAt"]

/-- One step of the date-reparsing loop body
`if (detail[key] && typeof detail[key] === "string") detail[key] = new Date(detail[key])`:
only a truthy (hence non-empty) string value is replaced by a `Date`. -/
def convertDateValue (v : JsVal) : JsVal :=
  match v with
  | .vStr s => if s = "" then .vStr s else .vDate s
  | v => v

/-- The date-reparsing loop of `parseEcsTaskStateChangeEvent` over the fields
of the embedded `detail` Task object.  JavaScript mutates the unique entry of
each key in place; mapping over the (unique-key) field list is the same. -/
def convertTaskDates (detail : TaskObj) : TaskObj :=
  detail.map (fun kv => if kv.1 ∈ dateKeys then (kv.1, convertDateValue kv.2) else kv)

/-- Model of `parseEcsTaskStateChangeEvent` (`src/app/aws.ts`): the argument is
the `JSON.parse` result of the raw message (`JSON.parse` itself is the
standard-library boundary).  The `detail` property is read and its date fields
reparsed; reading a property of `undefined`/`null` (missing `detail`, or a
non-object event) is a `TypeError`.  A primitive non-null `detail` yields no
truthy string-typed `detail[key]`, so the event is returned unchanged. -/
def parseEcsTaskStateChangeEvent (ev : JsVal) : Except JsErr JsVal :=
  match ev with
  | .vObj fields =>
    match List.lookup "detail" fields with
    | some (.vObj detail) =>
      .ok (.vObj (assocSet fields "detail" (.vObj (convertTaskDates detail))))
    | some .vNull => .error .typeError
    | some _ => .ok ev
    | none => .error .typeError
  | _ => .error .typeError

/-- Reading `.detail` from a successfully parsed event (always a `vObj` whose
`detail` key is present when the parse succeeded). -/
def getDetail (ev : JsVal) : Except JsErr JsVal :=
  match ev with
  | .vObj fields =>
    match List.lookup "detail" fields with
    | some d => .ok d
    | none => .error .typeError
  | _ => .error .typeError

/-- The in-memory finished-task cache `environment → taskId → Task`
(`finishedTaskCache` in `src/app/aws.ts`). -/
abbrev Cache := List (String × List (String × JsVal))

/-- Model of `if (!finishedTaskCache[env]) finishedTaskCache[env] = {}`. -/
def ensureEnv (cache : Cache) (env : String) : Cache :=
  match List.lookup env cache with
  | some _ => cache
  | none => cache ++ [(env, [])]

/-- One iteration of the `storeFinishedTasks` loop:
`finishedTaskCache[env][task.taskArn!.split("/").pop()!] = task`.
When `taskArn` is missing or not a string, `.split` is called on a value
without that method: `TypeError`. -/
def storeOne (cache : Cache) (env : String) (task : JsVal) : Except JsErr Cache :=
  match task with
  | .vObj fields =>
    match List.lookup "taskArn" fields with
    | some (.vStr arn) =>
      let id := jsSplitPop arn
      let m := (List.lookup env cache).getD []
      .ok (assocSet cache env (assocSet m id task))
    | _ => .error .typeError
  | _ => .error .typeError

/-- Model of `storeFinishedTasks` (`src/app/aws.ts`): ensures the active
environment's entry exists, then upserts every task keyed by the trailing
path segment of its `taskArn`. -/
def storeFinishedTasks (cache : Cache) (env : String) (tasks : List JsVal) :
    Except JsErr Cache :=
  tasks.foldlM (fun c t => storeOne c env t) (ensureEnv cache env)

/-- Model of `getFinishedTask` (`src/app/aws.ts`):
`return finishedTaskCache[env][taskId]`.  When the active environment has no
cache entry, `finishedTaskCache[env]` is `undefined` and indexing it throws a
`TypeError`; otherwise the lookup yields the task or `undefined` (= `none`). -/
def getFinishedTask (cache : Cache) (env taskId : String) :
    Except JsErr (Option JsVal) :=
  match List.lookup env cache with
  | none => .error .typeError
  | some m => .ok (List.lookup taskId m)

/-- The filter predicate of `finishedTasks` (listing route):
`!task.startedBy?.startsWith("ecs-svc/")`.  `?.` short-circuits only on
`undefined`/`null`; calling `.startsWith` on any other non-string value is a
`TypeError`, and `.startedBy` on a primitive task reads as `undefined`. -/
def startedByKeep (task : JsVal) : Except JsErr Bool :=
  match task with
  | .vNull => .error .typeError
  | .vObj fields =>
    match List.lookup "startedBy" fields with
    | none => .ok true
    | some .vNull => .ok true
    | some (.vStr s) => .ok (!(jsStartsWith s "ecs-svc/"))
    | some _ => .error .typeError
  | _ => .ok true

/-- Sequential effectful `map` over `Except`, mirroring `Array.prototype.map`
with a callback that can throw. -/
def mapExcept {α β : Type} (f : α → Except JsErr β) : List α → Except JsErr (List β)
  | [] => .ok []
  | x :: xs => do
    let y ← f x
    let ys ← mapExcept f xs
    .ok (y :: ys)

/-- Sequential effectful `filter` over `Except`, mirroring
`Array.prototype.filter` with a callback that can throw. -/
def filterExcept {α : Type} (p : α → Except JsErr Bool) : List α → Except JsErr (List α)
  | [] => .ok []
  | x :: xs => do
    let b ← p x
    let rest ← filterExcept p xs
    .ok (if b then x :: rest else rest)

/-- Model of `finishedTasks` (listing route, `finishedTasks` helper): the raw
log messages (given post-`JSON.parse` as `JsVal`s) are parsed, reduced to
their `detail` Task, filtered to drop service-started tasks, reversed, and
stored in the finished-task cache for the active environment.  Returns the new
cache together with the finished-task list the view is rendered from. -/
def finishedTasks (cache : Cache) (env : String) (messages : List JsVal) :
    Except JsErr (Cache × List JsVal) := do
  let parsed ← mapExcept (fun m => do
      let ev ← parseEcsTaskStateChangeEvent m
      getDetail ev) messages
  let kept ← filterExcept startedByKeep parsed
  let fin := kept.reverse
  let cache2 ← storeFinishedTasks cache env fin
  .ok (cache2, fin)

/-- Log configuration of a container definition (`@aws-sdk/client-ecs`
`LogConfiguration`, the fields `getLogStream` reads). -/
structure LogConfiguration where
  logDriver : Option String
  options : Option (List (String × String))
deriving DecidableEq

/-- Container definition (the fields `getLogStream` reads). -/
structure ContainerDefinition where
  name : Option String
  logConfiguration : Option LogConfiguration
deriving DecidableEq

/-- Task definition (the fields `getLogStream` reads). -/
structure TaskDefinition where
  containerDefinitions : Option (List ContainerDefinition)
deriving DecidableEq

/-- Resolved log-stream coordinates returned by `getLogStream`. -/
structure LogStreamLoc where
  group : Option String
  stream : String
deriving DecidableEq

/-- Reading a key of the optional `options` object of a log configuration
(`log.options?.[k]`). -/
def jsGetOpt (options : Option (List (String × String))) (k : String) :
    Option String :=
  options.bind (fun o => List.lookup k o)

/-- Model of `getLogStream` (`src/app/aws.ts`): finds the container definition
by name (`undefined`, i.e. `ok none`, when absent), then dereferences
`appContainer.logConfiguration!` — a `TypeError` at runtime when the container
has no log configuration — and returns `undefined` unless the driver is
`"awslogs"`; otherwise composes the group/stream pair. -/
def getLogStream (taskdef : TaskDefinition) (taskId containerName : String) :
    Except JsErr (Option LogStreamLoc) :=
  match (taskdef.containerDefinitions.getD []).find?
      (fun c => c.name == some containerName) with
  | none => .ok none
  | some appContainer =>
    match appContainer.logConfiguration with
    | none => .error .typeError
    | some log =>
      if log.logDriver = some "awslogs" then
        let pfx := jsOrString (jsGetOpt log.options "awslogs-stream-prefix") ""
        .ok (some { group := jsGetOpt log.options "awslogs-group",
                    stream := pfx ++ "/" ++ containerName ++ "/" ++ taskId })
      else .ok none

/-- One `DescribeTasksCommand` issued against the ECS API. -/
structure EcsDescribeCall where
  cluster : Option String
  tasks : List String
deriving DecidableEq

/-- Model of `describeTasks` (`src/app/aws.ts`): empty input returns an empty
list with no network call; otherwise the cluster is read from
`arns[0].split("/")[1]` and a single describe call is issued for the whole
batch.  The network is abstracted by `api`; the second component records the
calls issued. -/
def describeTasks (api : Option String → List String → List JsVal)
    (arns : List String) : List JsVal × List EcsDescribeCall :=
  match arns with
  | [] => ([], [])
  | a :: rest =>
    let cluster := secondSegment a
    (api cluster (a :: rest), [⟨cluster, a :: rest⟩])

/-- Network calls observable during task resolution. -/
inductive AwsCall where
  | listTasks (cluster : String)
  | describe (call : EcsDescribeCall)
deriving DecidableEq

/-- Outcomes of the task-detail loader's resolution block. -/
inductive LoaderErr where
  | notFound
  | jsError
deriving DecidableEq

/-- JavaScript truthiness of a runtime value. -/
def jsTruthy : JsVal → Bool
  | .vNull => false
  | .vStr s => !(s == "")
  | .vNum n => !(n == 0)
  | .vBool b => b
  | _ => true

/-- The live-lookup fallback of the detail-page `loader`: the listing
(`listing` is the snapshot returned by `listEcsTaskArns`, and the call is
recorded) is scanned with `arn.endsWith("/" + taskId)`; no match is a 404;
otherwise `describeTasks([targetTaskArn])` is issued and an empty answer is a
404.  The second component is the trace of calls issued. -/
def resolveLive (clusterName taskId : String) (listing : List String)
    (api : Option String → List String → List JsVal) :
    Except LoaderErr JsVal × List AwsCall :=
  match listing.find? (fun arn => jsEndsWith arn ("/" ++ taskId)) with
  | none => (.error .notFound, [.listTasks clusterName])
  | some target =>
    let described := describeTasks api [target]
    match described.1 with
    | [] => (.error .notFound, .listTasks clusterName :: described.2.map .describe)
    | t :: _ => (.ok t, .listTasks clusterName :: described.2.map .describe)

/-- Model of the task-resolution block of the detail-page `loader`
(`src/app/routes/tasks/show.tsx`): `getFinishedTask` first (`if (task) return
task` is a truthiness test, though every cached value is an object and hence
truthy), then the live list-and-describe fallback. -/
def resolveTask (cache : Cache) (env clusterName taskId : String)
    (listing : List String) (api : Option String → List String → List JsVal) :
    Except LoaderErr JsVal × List AwsCall :=
  match getFinishedTask cache env taskId with
  | .error _ => (.error .jsError, [])
  | .ok (some task) =>
    if jsTruthy task then (.ok task, [])
    else resolveLive clusterName taskId listing api
  | .ok none => resolveLive clusterName taskId listing api

/-- Page `i` of a paginated response stream (out-of-range pages are empty). -/
def pageAt (pages : List (List String)) (i : Nat) : List String :=
  pages.getD i []

/-- The AWS SDK paginator loop: request with the current token, accumulate the
page, and continue while the response token is truthy and — when
`stopOnSameToken` is set — different from the token just sent.  Fuel counts
loop iterations; `none` means the fuel ran out before the loop stopped, so a
`some` result exhibits termination. -/
def paginateLoop (fetch : Option Nat → List String × Option Nat) (stop : Bool) :
    Nat → Option Nat → List String → Option (List String)
  | 0, _, _ => none
  | fuel + 1, token, acc =>
    let page := (fetch token).1
    let next := (fetch token).2
    if next.isSome = true ∧ (stop = true → next ≠ token) then
      paginateLoop fetch stop fuel next (acc ++ page)
    else some (acc ++ page)

/-- The `GetLogEvents` backend in tail mode, derived from the documented API
behaviour: every response carries a continuation token, and once the stream
has no more pages the response repeats the request token with no events —
which is why the wrapped paginator loops forever without `stopOnSameToken`. -/
def getLogEventsFetch (pages : List (List String)) :
    Option Nat → List String × Option Nat
  | none => (pageAt pages 0, some 0)
  | some i =>
    if i + 1 < pages.length then (pageAt pages (i + 1), some (i + 1))
    else ([], some i)

/-- Model of `getLogEvents` (`src/app/aws.ts`): `paginateGetLogEvents` with
`stopOnSameToken: true`, collecting every page's events. -/
def getLogEvents (pages : List (List String)) : Option (List String) :=
  paginateLoop (getLogEventsFetch pages) true (pages.length + 2) none []

/-- A standard paginated listing backend: page `i` with a continuation token
exactly while further pages exist. -/
def listTasksFetch (pages : List (List String)) :
    Option Nat → List String × Option Nat
  | none => (pageAt pages 0, if 1 < pages.length then some 1 else none)
  | some i =>
    (pageAt pages i, if i + 1 < pages.length then some (i + 1) else none)

/-- Model of one `paginateListTasks` run, collecting all pages. -/
def paginateListTasks (pages : List (List String)) : Option (List String) :=
  paginateLoop (listTasksFetch pages) false (pages.length + 1) none []

/-- Model of `listEcsTaskArns` (`src/app/aws.ts`): one paginated listing per
status in RUNNING, PENDING, STOPPED order, results concatenated
(`Promise.all` preserves order; no deduplication). -/
def listEcsTaskArns (pagesRunning pagesPending pagesStopped : List (List String)) :
    Option (List String) := do
  let r ← paginateListTasks pagesRunning
  let p ← paginateListTasks pagesPending
  let s ← paginateListTasks pagesStopped
  return r ++ p ++ s

/-- Cutting a task list into server pages of at most 100 entries (the fixed
`pageSize: 100` of `listEcsTaskArns`); the fuel is an upper bound on the
number of pages and any fuel at least the list length is exact. -/
def chunksFuel : Nat → List String → List (List String)
  | _, [] => []
  | 0, l => [l]
  | fuel + 1, l => l.take 100 :: chunksFuel fuel (l.drop 100)

/-- Server-side paging of a task list with page size 100. -/
def chunks100 (l : List String) : List (List String) :=
  chunksFuel l.length l

/-! ### Helper lemmas about the JavaScript string model -/

theorem splitOnSlashAux_append (l₂ : List Char) :
    ∀ (l₁ cur : List Char),
      splitOnSlashAux (l₁ ++ '/' :: l₂) cur
        = splitOnSlashAux l₁ cur ++ splitOnSlashAux l₂ [] := by
  intro l₁
  induction l₁ with
  | nil => intro cur; simp [splitOnSlashAux]
  | cons c cs ih =>
    intro cur
    by_cases hc : c = '/'
    · subst hc; simp [splitOnSlashAux, ih]
    · simp [splitOnSlashAux, hc, ih]

theorem splitOnSlashAux_no_slash :
    ∀ (l cur : List Char), '/' ∉ l → splitOnSlashAux l cur = [cur.reverse ++ l] := by
  intro l
  induction l with
  | nil => intro cur _; simp [splitOnSlashAux]
  | cons c cs ih =>
    intro cur h
    have hc : ¬(c = '/') := by
      intro e; exact h (by simp [e])
    have htail : '/' ∉ cs := fun m => h (List.mem_cons_of_mem _ m)
    simp only [splitOnSlashAux, if_neg hc]
    rw [ih (c :: cur) htail]
    simp

theorem jsSplit_append_last {id : String} (h : '/' ∉ id.data) (arn : String)
    (pre : List Char) (harn : arn.data = pre ++ '/' :: id.data) :
    jsSplit arn = (splitOnSlashAux pre []).map String.mk ++ [id] := by
  unfold jsSplit
  rw [harn, splitOnSlashAux_append, splitOnSlashAux_no_slash _ _ h]
  simp [string_mk_data]

theorem jsSplitPop_of_endsWith {arn id : String} (h : '/' ∉ id.data)
    (he : jsEndsWith arn ("/" ++ id) = true) : jsSplitPop arn = id := by
  have hs : ("/" ++ id).data <:+ arn.data := List.isSuffixOf_iff_suffix.mp he
  obtain ⟨pre, hpre⟩ := hs
  have hdata : arn.data = pre ++ '/' :: id.data := by
    rw [← hpre, string_data_append]; rfl
  unfold jsSplitPop
  rw [jsSplit_append_last h arn pre hdata]
  simp [List.getLastD_concat]

/-! ### Helper lemmas about the date-conversion pass -/

theorem convertDateValue_idem (v : JsVal) :
    convertDateValue (convertDateValue v) = convertDateValue v := by
  cases v <;> simp [convertDateValue]
  case vStr s =>
    by_cases h : s = "" <;> simp [convertDateValue, h]

theorem lookup_convertTaskDates (k : String) (f : TaskObj) :
    List.lookup k (convertTaskDates f)
      = (List.lookup k f).map
          (fun v => if k ∈ dateKeys then convertDateValue v else v) := by
  induction f with
  | nil => rfl
  | cons kv rest ih =>
    obtain ⟨k', v'⟩ := kv
    have hhead : (if k' ∈ dateKeys then (k', convertDateValue v') else (k', v'))
        = (k', if k' ∈ dateKeys then convertDateValue v' else v') := by
      split <;> rfl
    simp only [convertTaskDates, List.map_cons] at ih ⊢
    rw [hhead]
    by_cases hb : (k == k') = true
    · have hk : k = k' := eq_of_beq hb
      subst hk
      simp [List.lookup]
    · have hb' : (k == k') = false := by
        simpa using hb
      simp [List.lookup, hb', ih]

theorem convertTaskDates_idem (f : TaskObj) :
    convertTaskDates (convertTaskDates f) = convertTaskDates f := by
  induction f with
  | nil => rfl
  | cons kv rest ih =>
    obtain ⟨k', v'⟩ := kv
    simp only [convertTaskDates, List.map_cons] at ih ⊢
    by_cases h : k' ∈ dateKeys <;>
      simp [h, convertDateValue_idem, ih]

/-! ### Helper lemmas about the effectful list combinators -/

theorem filterExcept_mem {α : Type} (p : α → Except JsErr Bool) :
    ∀ (l out : List α), filterExcept p l = .ok out → ∀ t ∈ out, p t = .ok true := by
  intro l
  induction l with
  | nil =>
    intro out h t ht
    simp only [filterExcept] at h
    cases h
    simp at ht
  | cons x xs ih =>
    intro out h t ht
    simp only [filterExcept] at h
    cases hp : p x with
    | error e => rw [hp] at h; simp [Bind.bind, Except.bind] at h
    | ok b =>
      rw [hp] at h
      cases hr : filterExcept p xs with
      | error e => rw [hr] at h; simp [Bind.bind, Except.bind] at h
      | ok rest =>
        rw [hr] at h
        simp only [Bind.bind, Except.bind] at h
        cases h
        cases b with
        | true =>
          rcases List.mem_cons.mp ht with rfl | hmem
          · rw [hp]
          · exact ih rest hr t hmem
        | false => exact ih rest hr t ht

/-! ### Helper lemmas about the paginator loop -/

theorem paginateLoop_succ (fetch : Option Nat → List String × Option Nat)
    (stop : Bool) (fuel : Nat) (token : Option Nat) (acc : List String) :
    paginateLoop fetch stop (fuel + 1) token acc
      = if (fetch token).2.isSome = true ∧ (stop = true → (fetch token).2 ≠ token)
        then paginateLoop fetch stop fuel (fetch token).2 (acc ++ (fetch token).1)
        else some (acc ++ (fetch token).1) := rfl

theorem pageAt_eq_getElem (pages : List (List String)) (i : Nat)
    (hi : i < pages.length) : pageAt pages i = pages[i] := by
  rw [pageAt, List.getD_eq_getElem?_getD, List.getElem?_eq_getElem hi]
  rfl

theorem pageAt_oob (pages : List (List String)) (i : Nat)
    (hi : pages.length ≤ i) : pageAt pages i = [] := by
  rw [pageAt, List.getD_eq_getElem?_getD, List.getElem?_eq_none hi]
  rfl

theorem pageAt_flatten_drop (pages : List (List String)) (i : Nat)
    (h : pages.length ≤ i + 1) : pageAt pages i = (pages.drop i).flatten := by
  by_cases hi : i < pages.length
  · have hcons : pages.drop i = pages[i] :: pages.drop (i + 1) :=
      List.drop_eq_getElem_cons hi
    have hnil : pages.drop (i + 1) = [] := List.drop_eq_nil_of_le (by omega)
    rw [hcons, hnil, List.flatten_cons, List.flatten_nil, List.append_nil,
      pageAt_eq_getElem pages i hi]
  · have hge : pages.length ≤ i := by omega
    rw [List.drop_eq_nil_of_le hge, List.flatten_nil, pageAt_oob pages i hge]

theorem paginateLoop_log_run (pages : List (List String)) :
    ∀ (fuel i : Nat) (acc : List String), pages.length ≤ i + 1 + fuel →
      paginateLoop (getLogEventsFetch pages) true (fuel + 1) (some i) acc
        = some (acc ++ (pages.drop (i + 1)).flatten) := by
  intro fuel
  induction fuel with
  | zero =>
    intro i acc hlen
    have hlt : ¬(i + 1 < pages.length) := by omega
    have hfetch : getLogEventsFetch pages (some i) = ([], some i) := by
      rw [getLogEventsFetch, if_neg hlt]
    have hnil : pages.drop (i + 1) = [] := List.drop_eq_nil_of_le (by omega)
    rw [paginateLoop_succ, hfetch]
    rw [if_neg (fun hcond => hcond.2 rfl rfl)]
    rw [hnil, List.flatten_nil]
  | succ fuel ih =>
    intro i acc hlen
    by_cases hlt : i + 1 < pages.length
    · have hfetch : getLogEventsFetch pages (some i)
          = (pageAt pages (i + 1), some (i + 1)) := by
        rw [getLogEventsFetch, if_pos hlt]
      rw [paginateLoop_succ, hfetch]
      rw [if_pos ⟨rfl, fun _ h => by simp at h⟩]
      rw [ih (i + 1) (acc ++ pageAt pages (i + 1)) (by omega)]
      have hcons : pages.drop (i + 1) = pages[i + 1] :: pages.drop (i + 2) :=
        List.drop_eq_getElem_cons hlt
      rw [hcons, List.flatten_cons, pageAt_eq_getElem pages (i + 1) hlt,
        List.append_assoc]
    · have hfetch : getLogEventsFetch pages (some i) = ([], some i) := by
        rw [getLogEventsFetch, if_neg hlt]
      have hnil : pages.drop (i + 1) = [] := List.drop_eq_nil_of_le (by omega)
      rw [paginateLoop_succ, hfetch]
      rw [if_neg (fun hcond => hcond.2 rfl rfl)]
      rw [hnil, List.flatten_nil]

theorem getLogEventsFetch_isSome (pages : List (List String)) (token : Option Nat) :
    ((getLogEventsFetch pages token).2).isSome = true := by
  cases token with
  | none => rfl
  | some i =>
    by_cases h : i + 1 < pages.length <;> simp [getLogEventsFetch, h]

theorem paginateLoop_log_noguard (pages : List (List String)) :
    ∀ (fuel : Nat) (token : Option Nat) (acc : List String),
      paginateLoop (getLogEventsFetch pages) false fuel token acc = none := by
  intro fuel
  induction fuel with
  | zero => intro token acc; rfl
  | succ fuel ih =>
    intro token acc
    rw [paginateLoop_succ]
    rw [if_pos ⟨getLogEventsFetch_isSome pages token, fun h => by simp at h⟩]
    exact ih _ _

theorem paginateLoop_list_run (pages : List (List String)) :
    ∀ (fuel i : Nat) (acc : List String), pages.length ≤ i + 1 + fuel →
      paginateLoop (listTasksFetch pages) false (fuel + 1) (some i) acc
        = some (acc ++ (pages.drop i).flatten) := by
  intro fuel
  induction fuel with
  | zero =>
    intro i acc hlen
    have hlt : ¬(i + 1 < pages.length) := by omega
    have hfetch : listTasksFetch pages (some i) = (pageAt pages i, none) := by
      rw [listTasksFetch, if_neg hlt]
    rw [paginateLoop_succ, hfetch]
    rw [if_neg (fun hcond => by simp at hcond)]
    rw [pageAt_flatten_drop pages i (by omega)]
  | succ fuel ih =>
    intro i acc hlen
    by_cases hlt : i + 1 < pages.length
    · have hfetch : listTasksFetch pages (some i)
          = (pageAt pages i, some (i + 1)) := by
        rw [listTasksFetch, if_pos hlt]
      rw [paginateLoop_succ, hfetch]
      rw [if_pos ⟨rfl, fun h => by simp at h⟩]
      rw [ih (i + 1) (acc ++ pageAt pages i) (by omega)]
      have hi : i < pages.length := by omega
      have hcons : pages.drop i = pages[i] :: pages.drop (i + 1) :=
        List.drop_eq_getElem_cons hi
      rw [hcons, List.flatten_cons, pageAt_eq_getElem pages i hi,
        List.append_assoc]
    · have hfetch : listTasksFetch pages (some i) = (pageAt pages i, none) := by
        rw [listTasksFetch, if_neg hlt]
      rw [paginateLoop_succ, hfetch]
      rw [if_neg (fun hcond => by simp at hcond)]
      rw [pageAt_flatten_drop pages i (by omega)]

theorem paginateListTasks_flatten (pages : List (List String)) :
    paginateListTasks pages = some pages.flatten := by
  cases pages with
  | nil =>
    rw [paginateListTasks, paginateLoop_succ]
    have hfetch : listTasksFetch [] none = ([], none) := rfl
    rw [hfetch]
    rw [if_neg (fun hcond => by simp at hcond)]
    rfl
  | cons p ps =>
    cases ps with
    | nil =>
      rw [paginateListTasks, paginateLoop_succ]
      have hfetch : listTasksFetch [p] none = (p, none) := rfl
      rw [hfetch]
      rw [if_neg (fun hcond => by simp at hcond)]
      simp
    | cons q rest =>
      rw [paginateListTasks, paginateLoop_succ]
      have hfetch : listTasksFetch (p :: q :: rest) none = (p, some 1) := by
        rw [listTasksFetch]
        rw [if_pos (by simp)]
        rfl
      rw [hfetch]
      rw [if_pos ⟨rfl, fun h => by simp at h⟩]
      have hlen : (p :: q :: rest).length = (rest.length + 1) + 1 := by
        simp
      rw [hlen]
      rw [paginateLoop_list_run (p :: q :: rest) (rest.length + 1) 1 ([] ++ p)
        (by simp only [List.length_cons]; omega)]
      simp

theorem chunksFuel_flatten :
    ∀ (fuel : Nat) (l : List String), (chunksFuel fuel l).flatten = l := by
  intro fuel
  induction fuel with
  | zero => intro l; cases l <;> simp [chunksFuel]
  | succ fuel ih =>
    intro l
    cases l with
    | nil => simp [chunksFuel]
    | cons x xs => simp [chunksFuel, ih]

/-! ### Claims -/

/-- C1: for every task identifier present in the finished-task cache for the
active environment, the task-detail loader returns the cached Task (an object,
hence truthy) as the cache-hit terminal outcome, and issues no live listing
call and no describe-tasks call. -/
theorem c1_cache_hit_terminal (cache : Cache) (env clusterName taskId : String)
    (listing : List String) (api : Option String → List String → List JsVal)
    (fields : TaskObj)
    (h : getFinishedTask cache env taskId = .ok (some (.vObj fields))) :
    resolveTask cache env clusterName taskId listing api
      = (.ok (.vObj fields), []) := by
  simp [resolveTask, h, jsTruthy]

theorem c1_cache_hit_terminal_witness :
    resolveTask
      [("dev", [("abc123", JsVal.vObj [("taskArn", JsVal.vStr "arn:aws:ecs:r:a:task/c/abc123")])])]
      "dev" "cluster1" "abc123" [] (fun _ _ => [])
      = (.ok (.vObj [("taskArn", JsVal.vStr "arn:aws:ecs:r:a:task/c/abc123")]), []) :=
  c1_cache_hit_terminal _ _ _ _ _ _ _ rfl

/-- C2: for every task identifier absent from the finished-task cache (the
active environment having a cache entry) and containing no `/` — URL path
parameters never do: if no identifier in the live listing has a trailing path
segment equal to the requested id, resolution fails with NotFound (404) and no
describe-tasks call is issued; if a matching identifier is found but the
subsequent describe-tasks call returns an empty sequence, resolution also
fails with NotFound. -/
theorem c2_listing_miss_not_found (cache : Cache)
    (env clusterName taskId : String) (listing : List String)
    (api : Option String → List String → List JsVal)
    (hmiss : getFinishedTask cache env taskId = .ok none)
    (hid : '/' ∉ taskId.data) :
    ((∀ arn ∈ listing, jsSplitPop arn ≠ taskId) →
       resolveTask cache env clusterName taskId listing api
         = (.error .notFound, [.listTasks clusterName]))
    ∧ (∀ target,
         listing.find? (fun arn => jsEndsWith arn ("/" ++ taskId)) = some target →
         api (secondSegment target) [target] = [] →
         resolveTask cache env clusterName taskId listing api
           = (.error .notFound,
              [.listTasks clusterName, .describe ⟨secondSegment target, [target]⟩])) := by
  constructor
  · intro hnone
    have hfind : listing.find? (fun arn => jsEndsWith arn ("/" ++ taskId)) = none := by
      apply List.find?_eq_none.mpr
      intro arn harn hends
      exact hnone arn harn (jsSplitPop_of_endsWith hid hends)
    simp [resolveTask, hmiss, resolveLive, hfind]
  · intro target hfind hapi
    simp [resolveTask, hmiss, resolveLive, hfind, describeTasks, hapi]

theorem c2_listing_miss_not_found_witness :
    resolveTask [("dev", [])] "dev" "cl" "abc" ["svc/c1/xyz"] (fun _ _ => [])
      = (.error .notFound, [.listTasks "cl"])
    ∧ resolveTask [("dev", [])] "dev" "cl" "abc" ["svc/c1/abc"] (fun _ _ => [])
      = (.error .notFound,
         [.listTasks "cl", .describe ⟨some "c1", ["svc/c1/abc"]⟩]) :=
  ⟨(c2_listing_miss_not_found [("dev", [])] "dev" "cl" "abc" ["svc/c1/xyz"]
      (fun _ _ => []) rfl (by decide)).1 (by decide),
   (c2_listing_miss_not_found [("dev", [])] "dev" "cl" "abc" ["svc/c1/abc"]
      (fun _ _ => []) rfl (by decide)).2 "svc/c1/abc" rfl rfl⟩

/-- C3 counterexample: with a completely empty cache — no task ever stored for
any environment — `getFinishedTask` evaluates `finishedTaskCache[env][taskId]`
where `finishedTaskCache[env]` is `undefined`, raising a TypeError instead of
returning absent. -/
theorem c3_counterexample_empty_env_raises :
    getFinishedTask [] "dev" "abc123" = .error .typeError := rfl

/-- C3 (amended): for every task identifier not cached for the active
environment, `getFinishedTask` returns absent — not an error — and does not
modify the cache (it is a pure function of it), provided the active
environment already has a cache entry (i.e. some `storeFinishedTasks` run has
created it); when the environment has no entry at all the lookup raises a
TypeError instead. -/
theorem c3_get_finished_task_absent (cache : Cache) (env taskId : String)
    (m : List (String × JsVal)) (henv : List.lookup env cache = some m)
    (hid : List.lookup taskId m = none) :
    getFinishedTask cache env taskId = .ok none := by
  simp [getFinishedTask, henv, hid]

theorem c3_get_finished_task_absent_witness :
    getFinishedTask [("dev", [("aaa", JsVal.vObj [])])] "dev" "bbb" = .ok none :=
  c3_get_finished_task_absent _ _ _ [("aaa", JsVal.vObj [])] rfl rfl

/-- C4 counterexample: a task definition whose container matches the requested
name but carries no log configuration at all makes `getLogStream` dereference
`appContainer.logConfiguration!` — a TypeError at runtime — instead of
returning absent. -/
theorem c4_counterexample_missing_logconfig_raises :
    getLogStream ⟨some [⟨some "app", none⟩]⟩ "task1" "app" = .error .typeError :=
  rfl

/-- C4 (amended): `getLogStream` returns absent when no container definition
in the task definition has the given name, and returns absent when the found
container definition has a log configuration whose driver is not `"awslogs"`;
when the found container has no log configuration at all it instead raises a
TypeError (the code dereferences the configuration unconditionally). -/
theorem c4_log_stream_absent (td : TaskDefinition) (taskId containerName : String) :
    ((td.containerDefinitions.getD []).find?
        (fun c => c.name == some containerName) = none →
       getLogStream td taskId containerName = .ok none)
    ∧ (∀ c cfg,
         (td.containerDefinitions.getD []).find?
             (fun c => c.name == some containerName) = some c →
         c.logConfiguration = some cfg → cfg.logDriver ≠ some "awslogs" →
         getLogStream td taskId containerName = .ok none) := by
  constructor
  · intro h
    simp [getLogStream, h]
  · intro c cfg hf hcfg hdrv
    simp [getLogStream, hf, hcfg, hdrv]

theorem c4_log_stream_absent_witness :
    getLogStream ⟨some [⟨some "web", none⟩]⟩ "t1" "app" = .ok none
    ∧ getLogStream ⟨some [⟨some "app", some ⟨some "json-file", none⟩⟩]⟩ "t1" "app"
        = .ok none :=
  ⟨(c4_log_stream_absent ⟨some [⟨some "web", none⟩]⟩ "t1" "app").1 rfl,
   (c4_log_stream_absent ⟨some [⟨some "app", some ⟨some "json-file", none⟩⟩]⟩
      "t1" "app").2 ⟨some "app", some ⟨some "json-file", none⟩⟩
      ⟨some "json-file", none⟩ rfl rfl (by decide)⟩

/-- Splitting a composed stream name: appending `"/" ++ cn ++ "/" ++ tid` to
any base splits into the base's segments followed by `cn` and `tid`, provided
`cn` and `tid` contain no `/`. -/
theorem jsSplit_compose (a cn tid : String) (hcn : '/' ∉ cn.data)
    (htid : '/' ∉ tid.data) :
    jsSplit (a ++ "/" ++ cn ++ "/" ++ tid) = jsSplit a ++ [cn, tid] := by
  have hdata : (a ++ "/" ++ cn ++ "/" ++ tid).data
      = a.data ++ '/' :: (cn.data ++ '/' :: tid.data) := by
    rw [string_data_append, string_data_append, string_data_append]
    simp
  unfold jsSplit
  rw [hdata, splitOnSlashAux_append, splitOnSlashAux_append,
    splitOnSlashAux_no_slash _ _ hcn, splitOnSlashAux_no_slash _ _ htid]
  simp [string_mk_data]

/-- C5: for every task definition containing a container with the given name
whose log driver is `"awslogs"`, the returned stream name is exactly
`prefix ++ "/" ++ containerName ++ "/" ++ taskId` when the stream-name prefix
option is present and non-empty, and `"/" ++ containerName ++ "/" ++ taskId`
when it is absent or empty; and — container names and task ids never
containing `/` — splitting any produced stream name on `/` yields
containerName and taskId as the last two segments. -/
theorem c5_stream_name_round_trip (td : TaskDefinition)
    (taskId containerName px : String) (c : ContainerDefinition)
    (cfg : LogConfiguration) (g : Option String) (stream : String)
    (hf : (td.containerDefinitions.getD []).find?
        (fun c => c.name == some containerName) = some c)
    (hcfg : c.logConfiguration = some cfg)
    (hdrv : cfg.logDriver = some "awslogs") :
    (jsGetOpt cfg.options "awslogs-stream-prefix" = some px → px ≠ "" →
       getLogStream td taskId containerName
         = .ok (some ⟨jsGetOpt cfg.options "awslogs-group",
                      px ++ "/" ++ containerName ++ "/" ++ taskId⟩))
    ∧ (jsGetOpt cfg.options "awslogs-stream-prefix" = none
         ∨ jsGetOpt cfg.options "awslogs-stream-prefix" = some "" →
       getLogStream td taskId containerName
         = .ok (some ⟨jsGetOpt cfg.options "awslogs-group",
                      "" ++ "/" ++ containerName ++ "/" ++ taskId⟩))
    ∧ (getLogStream td taskId containerName = .ok (some ⟨g, stream⟩) →
       '/' ∉ containerName.data → '/' ∉ taskId.data →
       (jsSplit stream).reverse.take 2 = [taskId, containerName]) := by
  have hstream : getLogStream td taskId containerName
      = .ok (some ⟨jsGetOpt cfg.options "awslogs-group",
          jsOrString (jsGetOpt cfg.options "awslogs-stream-prefix") ""
            ++ "/" ++ containerName ++ "/" ++ taskId⟩) := by
    simp [getLogStream, hf, hcfg, hdrv]
  refine ⟨?_, ?_, ?_⟩
  · intro hopt hne
    rw [hstream, hopt]
    simp [jsOrString, hne]
  · intro hopt
    rcases hopt with hopt | hopt <;> rw [hstream, hopt] <;> rfl
  · intro hout hcn htid
    have heq := hstream.symm.trans hout
    simp only [Except.ok.injEq, Option.some.injEq, LogStreamLoc.mk.injEq] at heq
    obtain ⟨-, hs⟩ := heq
    rw [← hs, jsSplit_compose _ _ _ hcn htid]
    simp

def cfg5a : LogConfiguration :=
  ⟨some "awslogs", some [("awslogs-group", "g"), ("awslogs-stream-prefix", "p")]⟩

def td5a : TaskDefinition := ⟨some [⟨some "app", some cfg5a⟩]⟩

def cfg5b : LogConfiguration := ⟨some "awslogs", some [("awslogs-group", "g")]⟩

def td5b : TaskDefinition := ⟨some [⟨some "app", some cfg5b⟩]⟩

theorem c5_stream_name_round_trip_witness :
    getLogStream td5a "t1" "app" = .ok (some ⟨some "g", "p/app/t1"⟩)
    ∧ getLogStream td5b "t1" "app" = .ok (some ⟨some "g", "/app/t1"⟩)
    ∧ (jsSplit "p/app/t1").reverse.take 2 = ["t1", "app"] :=
  ⟨(c5_stream_name_round_trip td5a "t1" "app" "p" ⟨some "app", some cfg5a⟩
      cfg5a (some "g") "p/app/t1" rfl rfl rfl).1 rfl (by decide),
   (c5_stream_name_round_trip td5b "t1" "app" "" ⟨some "app", some cfg5b⟩
      cfg5b (some "g") "/app/t1" rfl rfl rfl).2.1 (Or.inl rfl),
   (c5_stream_name_round_trip td5a "t1" "app" "p" ⟨some "app", some cfg5a⟩
      cfg5a (some "g") "p/app/t1" rfl rfl rfl).2.2 rfl (by decide) (by decide)⟩

/-- Fields of the `detail` Task of the first C6 example event. -/
def c6ev1Detail : TaskObj :=
  [("taskArn", .vStr "arn:...:task/clusterA/abc123"),
   ("startedBy", .vStr "ecs-svc/x")]

/-- Fields of the `detail` Task of the second C6 example event. -/
def c6ev2Detail : TaskObj :=
  [("taskArn", .vStr "arn:...:task/clusterA/def456"),
   ("startedBy", .vStr "manual")]

/-- The first C6 example raw event, post-`JSON.parse`. -/
def c6ev1 : JsVal := .vObj [("detail", .vObj c6ev1Detail)]

/-- The second C6 example raw event, post-`JSON.parse`. -/
def c6ev2 : JsVal := .vObj [("detail", .vObj c6ev2Detail)]

/-- The cache state after the C6 scenario runs against an empty cache. -/
def c6cacheAfter : Cache := [("dev", [("def456", .vObj c6ev2Detail)])]

/-- C6: every task in the finished-task list whose `startedBy` begins with
`"ecs-svc/"` is excluded; concretely, the event with `startedBy "ecs-svc/x"`
is excluded from the built finished-task list while the one with `startedBy
"manual"` is included, and after `storeFinishedTasks` runs for the active
environment, `getFinishedTask "def456"` returns that task (keyed by the
trailing path segment of its `taskArn`). -/
theorem c6_finished_task_scenario :
    (∀ (cache : Cache) (env : String) (messages : List JsVal)
       (out : Cache × List JsVal),
       finishedTasks cache env messages = .ok out →
       ∀ t ∈ out.2, ∀ (fields : TaskObj) (s : String), t = .vObj fields →
         List.lookup "startedBy" fields = some (.vStr s) →
         jsStartsWith s "ecs-svc/" = false)
    ∧ finishedTasks [] "dev" [c6ev1, c6ev2]
        = .ok (c6cacheAfter, [.vObj c6ev2Detail])
    ∧ getFinishedTask c6cacheAfter "dev" "def456"
        = .ok (some (.vObj c6ev2Detail)) := by
  refine ⟨?_, rfl, rfl⟩
  intro cache env messages out hrun t ht fields s hobj hsb
  unfold finishedTasks at hrun
  cases hm : mapExcept (fun m => do
      let ev ← parseEcsTaskStateChangeEvent m
      getDetail ev) messages with
  | error e => rw [hm] at hrun; simp [Bind.bind, Except.bind] at hrun
  | ok parsed =>
    rw [hm] at hrun
    simp only [Bind.bind, Except.bind] at hrun
    cases hfil : filterExcept startedByKeep parsed with
    | error e => rw [hfil] at hrun; simp at hrun
    | ok kept =>
      rw [hfil] at hrun
      simp at hrun
      cases hst : storeFinishedTasks cache env kept.reverse with
      | error e => rw [hst] at hrun; simp at hrun
      | ok cache2 =>
        rw [hst] at hrun
        simp only [Except.ok.injEq] at hrun
        rw [← hrun] at ht
        simp at ht
        have hkeep := filterExcept_mem startedByKeep parsed kept hfil t ht
        rw [hobj] at hkeep
        simp only [startedByKeep, hsb] at hkeep
        simpa using hkeep

theorem c6_finished_task_scenario_witness :
    jsStartsWith "manual" "ecs-svc/" = false :=
  c6_finished_task_scenario.1 [] "dev" [c6ev1, c6ev2]
    (c6cacheAfter, [.vObj c6ev2Detail]) rfl (.vObj c6ev2Detail)
    (List.mem_cons_self _ _) c6ev2Detail "manual" rfl rfl

/-- C7: the date-reparsing pass of `parseEcsTaskStateChangeEvent` converts
exactly the eight named date attributes — and only from a truthy string value,
producing the Date built from that string; a Date-typed or absent field is
left unchanged, any attribute outside the eight keys is left unconverted, and
the whole pass is idempotent. -/
theorem c7_date_reparse_idempotent :
    (∀ (f : TaskObj) (k : String), k ∉ dateKeys →
       List.lookup k (convertTaskDates f) = List.lookup k f)
    ∧ (∀ (f : TaskObj) (k s : String),
         List.lookup k f = some (.vDate s) →
         List.lookup k (convertTaskDates f) = some (.vDate s))
    ∧ (∀ (f : TaskObj) (k : String), List.lookup k f = none →
         List.lookup k (convertTaskDates f) = none)
    ∧ (∀ (f : TaskObj) (k s : String), k ∈ dateKeys →
         List.lookup k f = some (.vStr s) → s ≠ "" →
         List.lookup k (convertTaskDates f) = some (.vDate s))
    ∧ (∀ f : TaskObj,
         convertTaskDates (convertTaskDates f) = convertTaskDates f) := by
  refine ⟨?_, ?_, ?_, ?_, convertTaskDates_idem⟩
  · intro f k hk
    rw [lookup_convertTaskDates]
    cases h : List.lookup k f <;> simp [h, hk]
  · intro f k s h
    rw [lookup_convertTaskDates, h]
    simp [convertDateValue]
  · intro f k h
    rw [lookup_convertTaskDates, h]
    rfl
  · intro f k s hk h hs
    rw [lookup_convertTaskDates, h]
    simp [hk, convertDateValue, hs]

/-- Concrete Task fields exercising the C7 statement. -/
def c7fields : TaskObj :=
  [("createdAt", .vStr "2024-01-02T03:04:05Z"),
   ("lastStatus", .vStr "STOPPED"),
   ("stoppedAt", .vDate "2024-01-02T04:00:00Z")]

theorem c7_date_reparse_idempotent_witness :
    List.lookup "lastStatus" (convertTaskDates c7fields)
        = List.lookup "lastStatus" c7fields
    ∧ List.lookup "createdAt" (convertTaskDates c7fields)
        = some (.vDate "2024-01-02T03:04:05Z")
    ∧ List.lookup "stoppedAt" (convertTaskDates c7fields)
        = some (.vDate "2024-01-02T04:00:00Z")
    ∧ convertTaskDates (convertTaskDates c7fields) = convertTaskDates c7fields :=
  ⟨c7_date_reparse_idempotent.1 c7fields "lastStatus" (by decide),
   c7_date_reparse_idempotent.2.2.2.1 c7fields "createdAt" "2024-01-02T03:04:05Z"
     (by decide) rfl (by decide),
   c7_date_reparse_idempotent.2.1 c7fields "stoppedAt" "2024-01-02T04:00:00Z" rfl,
   c7_date_reparse_idempotent.2.2.2.2 c7fields⟩

/-- C8: `getLogEvents` terminates for every input stream: for every page list,
the guarded paginator halts (a `some` result) and returns the finite
concatenation of all pages, because `stopOnSameToken` stops it on the repeated
continuation token; without that option the same backend keeps the loop
running forever (no amount of fuel ever completes). -/
theorem c8_get_log_events_terminates (pages : List (List String)) :
    getLogEvents pages = some pages.flatten
    ∧ ∀ fuel, paginateLoop (getLogEventsFetch pages) false fuel none [] = none := by
  constructor
  · rw [getLogEvents, paginateLoop_succ]
    have hfetch : getLogEventsFetch pages none = (pageAt pages 0, some 0) := rfl
    rw [hfetch]
    rw [if_pos ⟨rfl, fun _ => by simp⟩]
    rw [paginateLoop_log_run pages pages.length 0 ([] ++ pageAt pages 0) (by omega)]
    have hhead : pageAt pages 0 ++ pages.tail.flatten = pages.flatten := by
      cases pages with
      | nil => rfl
      | cons p ps => simp [pageAt]
    simp [hhead]
  · intro fuel
    exact paginateLoop_log_noguard pages fuel none []

/-- A cluster snapshot of 150 pairwise-distinct RUNNING task identifiers. -/
def runningArns150 : List String :=
  (List.range 150).map (fun i => String.mk (List.replicate (i + 1) 'a'))

set_option maxRecDepth 8192 in
/-- C9: `listEcsTaskArns` returns exactly the concatenation, over the statuses
RUNNING, PENDING, STOPPED in that order, of all identifiers reported across
all pages of each status's paginated listing, with no cross-status
deduplication; concretely, 150 RUNNING tasks are served in 2 pages of page
size 100 and all 150 distinct identifiers come back with no duplicates. -/
theorem c9_list_task_arns_concatenation :
    (∀ pagesR pagesP pagesS : List (List String),
       listEcsTaskArns pagesR pagesP pagesS
         = some (pagesR.flatten ++ pagesP.flatten ++ pagesS.flatten))
    ∧ listEcsTaskArns (chunks100 runningArns150) [] [] = some runningArns150
    ∧ runningArns150.Nodup
    ∧ runningArns150.length = 150
    ∧ (chunks100 runningArns150).length = 2 := by
  have hgen : ∀ pagesR pagesP pagesS : List (List String),
      listEcsTaskArns pagesR pagesP pagesS
        = some (pagesR.flatten ++ pagesP.flatten ++ pagesS.flatten) := by
    intro pR pP pS
    simp [listEcsTaskArns, paginateListTasks_flatten, Bind.bind, Option.bind]
  refine ⟨hgen, ?_, ?_, ?_, ?_⟩
  · rw [hgen, chunks100, chunksFuel_flatten]
    simp
  · have hinj : Function.Injective
        (fun i : Nat => String.mk (List.replicate (i + 1) 'a')) := by
      intro i j hij
      have hlen := congrArg (fun s : String => s.data.length) hij
      simp at hlen
      omega
    exact (List.nodup_range 150).map hinj
  · rw [runningArns150]
    simp
  · decide

/-- C10: `describeTasks` called with an empty identifier list returns an empty
sequence and issues no network call; for every non-empty identifier list it
derives the cluster from the second `/`-separated segment of the first
identifier and issues exactly one describe call for the whole batch
(concretely, `"clusterA"` for a standard task ARN). -/
theorem c10_describe_tasks_batching :
    (∀ api : Option String → List String → List JsVal,
       describeTasks api [] = ([], []))
    ∧ (∀ (api : Option String → List String → List JsVal) (a : String)
         (rest : List String),
         describeTasks api (a :: rest)
           = (api (secondSegment a) (a :: rest),
              [⟨secondSegment a, a :: rest⟩]))
    ∧ secondSegment "arn:aws:ecs:ap-northeast-1:123456789012:task/clusterA/abc123"
        = some "clusterA" :=
  ⟨fun _ => rfl, fun _ _ _ => rfl, rfl⟩

end AwsViewer
